import Mathlib

/-!
Verification of the `pof` source-filter GaP-NMF repository.

The Python sources (`code/_gap.py`, `code/sf_gap_nmf.py`, `dict_prior.py`) are
shallowly embedded below.  Floating point numbers are modelled by rationals;
the IEEE value `+inf` (which genuinely arises, e.g. for `E[1/x]` of a Gamma
with shape `<= 1`) is modelled by `⊤` in `WithTop ℚ`.  Transcendental special
functions (`exp`, `log`, `psi`, the scaled Bessel ratio used on the
non-degenerate GIG branch, `sqrt`) have no exact rational meaning; they are
passed in as explicit oracle parameters, so every definition stays a faithful,
executable image of the corresponding Python data flow while the claims under
study never depend on the oracle values.
-/

namespace Pof

/-! ## `goodk` component selection (`sf_gap_nmf.py`, lines 249-263)

`np.argsort` (ascending) followed by `np.flipud` is modelled as sorting the
index list `[0, ..., K-1]` by descending value.  `np.where(cond)[0]` is the
filter of passing positions, and `idx[-1]` is `List.getLast?`; an empty `idx`
makes `idx[-1]` raise `IndexError`, modelled by `none`. -/

/-- Descending-by-value comparison on indices into `xs`. -/
def idxDesc (xs : List ℚ) (i j : ℕ) : Prop :=
  xs.getD j 0 ≤ xs.getD i 0

instance (xs : List ℚ) : DecidableRel (idxDesc xs) :=
  fun _ _ => inferInstanceAs (Decidable (_ ≤ _))

/-- `np.flipud(np.argsort(xs))`: indices of `xs` sorted by descending value. -/
def argsortDesc (xs : List ℚ) : List ℕ :=
  List.insertionSort (idxDesc xs) (List.range xs.length)

/-- `idx = np.where(self.Et[sorted] > cut_off * np.sum(self.Et))[0]`:
the positions, in the descending ordering, whose power exceeds the cutoff
fraction of the total power. -/
def goodkIdx (Et : List ℚ) (cut_off : ℚ) : List ℕ :=
  (List.range (argsortDesc Et).length).filter
    (fun p => cut_off * Et.sum < Et.getD ((argsortDesc Et).getD p 0) 0)

/-- `SF_GaP_NMF.goodk` (the cutoff defaults to `1e-6` at the call sites).
`idx[-1]` on an empty `idx` raises `IndexError`, modelled by `none`. -/
def goodk (Et : List ℚ) (cut_off : ℚ) : Option (List ℕ) :=
  match (goodkIdx Et cut_off).getLast? with
  | none => none
  | some last => some ((argsortDesc Et).take (last + 1))

/-- The default cutoff `1e-6` of `goodk`. -/
def defaultCutOff : ℚ := 1 / 1000000

theorem idxDesc_total (xs : List ℚ) : IsTotal ℕ (idxDesc xs) :=
  ⟨fun i j => le_total (xs.getD j 0) (xs.getD i 0)⟩

theorem idxDesc_trans (xs : List ℚ) : IsTrans ℕ (idxDesc xs) :=
  ⟨fun _ _ _ hij hjk => le_trans hjk hij⟩

theorem argsortDesc_perm (xs : List ℚ) :
    (argsortDesc xs).Perm (List.range xs.length) :=
  List.perm_insertionSort _ _

theorem argsortDesc_sorted (xs : List ℚ) :
    (argsortDesc xs).Pairwise (idxDesc xs) := by
  haveI := idxDesc_total xs
  haveI := idxDesc_trans xs
  exact List.sorted_insertionSort (idxDesc xs) (List.range xs.length)

/-- In a `(<)`-pairwise list, every element is at most the last one. -/
theorem le_getLast_of_pairwise_lt :
    ∀ (l : List ℕ), l.Pairwise (· < ·) → ∀ b, l.getLast? = some b →
      ∀ a ∈ l, a ≤ b := by
  intro l
  induction l with
  | nil => intro _ b hb a ha; simp at ha
  | cons x t ih =>
    intro hp b hb a ha
    cases t with
    | nil =>
      simp only [List.getLast?_singleton, Option.some.injEq] at hb
      rcases List.mem_cons.mp ha with rfl | h
      · exact le_of_eq hb
      · simp at h
    | cons y s =>
      have hb' : (y :: s).getLast? = some b := by
        simpa [List.getLast?_cons_cons] using hb
      rcases List.mem_cons.mp ha with rfl | h
      · have hbm : b ∈ y :: s := by
          have h1 := List.getLast?_eq_getLast (y :: s) (by simp)
          rw [h1, Option.some.injEq] at hb'
          rw [← hb']
          exact List.getLast_mem (by simp)
        exact le_of_lt ((List.pairwise_cons.mp hp).1 b hbm)
      · exact ih (List.pairwise_cons.mp hp).2 b hb' a h

/-- C1: for strictly positive powers with at least one component above the
cutoff fraction of the total power, `goodk` returns the indices sorted by
descending power, and a component is kept exactly when its power exceeds
`cut_off * sum`. -/
theorem goodk_keeps_sorted_over_threshold (Et : List ℚ) (c : ℚ)
    (hpos : ∀ x ∈ Et, 0 < x)
    (hex : ∃ x ∈ Et, c * Et.sum < x) :
    ∃ g, goodk Et c = some g ∧
      g.Pairwise (fun i j => Et.getD j 0 ≤ Et.getD i 0) ∧
      ∀ k, k ∈ g ↔ (k < Et.length ∧ c * Et.sum < Et.getD k 0) := by
  classical
  set srt := argsortDesc Et with hsrt
  have hperm := argsortDesc_perm Et
  have hsorted := argsortDesc_sorted Et
  -- the `idx` list is nonempty
  obtain ⟨x, hxmem, hxlt⟩ := hex
  obtain ⟨k0, hk0, hk0x⟩ := List.mem_iff_getElem.mp hxmem
  have hk0mem : k0 ∈ srt := hperm.mem_iff.mpr (List.mem_range.mpr hk0)
  obtain ⟨p0, hp0, hp0k⟩ := List.mem_iff_getElem.mp hk0mem
  have hP0 : decide (c * Et.sum < Et.getD (srt.getD p0 0) 0) = true := by
    apply decide_eq_true
    rw [List.getD_eq_getElem srt 0 hp0, hp0k, List.getD_eq_getElem Et 0 hk0, hk0x]
    exact hxlt
  have hp0idx : p0 ∈ goodkIdx Et c :=
    List.mem_filter.mpr ⟨List.mem_range.mpr hp0, hP0⟩
  have hne : goodkIdx Et c ≠ [] := List.ne_nil_of_mem hp0idx
  have hlastq := List.getLast?_eq_getLast (goodkIdx Et c) hne
  set last := (goodkIdx Et c).getLast hne with hlastdef
  have hlastmem : last ∈ goodkIdx Et c := List.getLast_mem hne
  have hlastrange : last < srt.length :=
    List.mem_range.mp (List.mem_filter.mp hlastmem).1
  have hlastP : c * Et.sum < Et.getD (srt.getD last 0) 0 :=
    of_decide_eq_true (List.mem_filter.mp hlastmem).2
  -- positions up to `last` all pass the threshold (the list is sorted)
  have hdc : ∀ q, q ≤ last → (hq : q < srt.length) →
      c * Et.sum < Et.getD (srt[q]) 0 := by
    intro q hqle hq
    rcases eq_or_lt_of_le hqle with rfl | hqlt
    · rwa [List.getD_eq_getElem srt 0 hq] at hlastP
    · have hrel : idxDesc Et (srt[q]) (srt[last]) :=
        List.pairwise_iff_getElem.mp hsorted q last hq hlastrange hqlt
      have h1 : c * Et.sum < Et.getD (srt[last]) 0 := by
        rwa [List.getD_eq_getElem srt 0 hlastrange] at hlastP
      exact lt_of_lt_of_le h1 hrel
  -- `last` is the maximum of `idx`
  have hmax : ∀ q ∈ goodkIdx Et c, q ≤ last := by
    have hpw : (goodkIdx Et c).Pairwise (· < ·) :=
      (List.pairwise_lt_range srt.length).filter _
    exact le_getLast_of_pairwise_lt (goodkIdx Et c) hpw last hlastq
  have hgk : goodk Et c = some (srt.take (last + 1)) := by
    unfold goodk
    rw [hlastq]
  refine ⟨srt.take (last + 1), hgk, hsorted.sublist (List.take_sublist _ _), ?_⟩
  intro k
  constructor
  · intro hkmem2
    obtain ⟨p, hp2, hpk2⟩ := List.mem_iff_getElem.mp hkmem2
    have hp3 : p < srt.length := by
      have := hp2
      simp only [List.length_take] at this
      omega
    have hple : p ≤ last := by
      have := hp2
      simp only [List.length_take] at this
      omega
    have hsk : srt[p] = k := by
      rw [← hpk2]
      exact (List.getElem_take ..).symm
    have hval := hdc p hple hp3
    rw [hsk] at hval
    have hklen : k < Et.length := by
      have hks : k ∈ srt := by
        rw [← hsk]; exact List.getElem_mem _
      exact List.mem_range.mp (hperm.mem_iff.mp hks)
    exact ⟨hklen, hval⟩
  · rintro ⟨hklen, hkval⟩
    have hkmem3 : k ∈ srt := hperm.mem_iff.mpr (List.mem_range.mpr hklen)
    obtain ⟨p, hp2, hpk2⟩ := List.mem_iff_getElem.mp hkmem3
    have hPp2 : decide (c * Et.sum < Et.getD (srt.getD p 0) 0) = true := by
      apply decide_eq_true
      rw [List.getD_eq_getElem srt 0 hp2, hpk2]
      exact hkval
    have hpidx2 : p ∈ goodkIdx Et c :=
      List.mem_filter.mpr ⟨List.mem_range.mpr hp2, hPp2⟩
    have hple : p ≤ last := hmax p hpidx2
    have hlt : p < (srt.take (last + 1)).length := by
      simp only [List.length_take]
      omega
    have : (srt.take (last + 1))[p] = srt[p] := List.getElem_take ..
    rw [← hpk2, ← this]
    exact List.getElem_mem _

/-- The spec's example power vector `[10, 5, 1e-8, 0.2, 1e-10]`. -/
def exampleEt : List ℚ := [10, 5, 1/100000000, 1/5, 1/10000000000]

theorem goodk_keeps_sorted_over_threshold_witness :
    (∃ g, goodk exampleEt defaultCutOff = some g ∧
      g.Pairwise (fun i j => exampleEt.getD j 0 ≤ exampleEt.getD i 0) ∧
      ∀ k, k ∈ g ↔ (k < exampleEt.length ∧
        defaultCutOff * exampleEt.sum < exampleEt.getD k 0)) ∧
    goodk exampleEt defaultCutOff = some [0, 1, 3] :=
  ⟨goodk_keeps_sorted_over_threshold exampleEt defaultCutOff
      (by norm_num [exampleEt]) (by norm_num [exampleEt, defaultCutOff]),
    by norm_num [goodk, goodkIdx, argsortDesc, idxDesc, exampleEt, defaultCutOff,
      List.insertionSort, List.orderedInsert, List.range_succ, List.filter]⟩

/-- Auxiliary: entries of a constant list through `getD`. -/
theorem getD_replicate_cases (a d : ℚ) :
    ∀ (n i : ℕ), (List.replicate n a).getD i d = a ∨
      (List.replicate n a).getD i d = d
  | 0, _ => Or.inr rfl
  | _ + 1, 0 => Or.inl rfl
  | n + 1, i + 1 => getD_replicate_cases a d n i

/-- When no sorted position passes the threshold, `idx` is empty and the
source raises `IndexError` at `idx[-1]`. -/
theorem goodk_eq_none_of_idx_nil (Et : List ℚ) (c : ℚ)
    (h : goodkIdx Et c = []) : goodk Et c = none := by
  unfold goodk
  rw [h]
  rfl

/-- C1 counterexample: on the strictly positive power vector with `10^6`
equal entries, no component exceeds `1e-6` of the total, `idx` is empty and
`idx[-1]` raises `IndexError` — `goodk` does not return the (empty) prefix. -/
theorem goodk_crashes_when_all_below_cutoff :
    goodk (List.replicate 1000000 (1 : ℚ)) defaultCutOff = none := by
  apply goodk_eq_none_of_idx_nil
  have hsum : (List.replicate 1000000 (1 : ℚ)).sum = 1000000 := by
    rw [List.sum_replicate]
    norm_num
  unfold goodkIdx
  rw [List.filter_eq_nil_iff]
  intro p _
  simp only [decide_eq_true_eq, not_lt]
  rcases getD_replicate_cases 1 0 1000000
      ((argsortDesc (List.replicate 1000000 (1 : ℚ))).getD p 0) with h | h
  · rw [h, hsum]
    norm_num [defaultCutOff]
  · rw [h, hsum]
    norm_num [defaultCutOff]

/-! ## `_gap.py` special-function moment library -/

/-- The degenerate-`tau` threshold `1e-200` of `compute_gig_expectations`. -/
def tauCut : ℚ := 1 / 10 ^ 200

/-- The post-hoc clamp `Exinv[Exinv < 0] = np.inf` (elementwise). -/
def clampNegInf (x : WithTop ℚ) : WithTop ℚ :=
  if x < 0 then ⊤ else x

/-- One element of `_gap.compute_gig_expectations`.  On the non-degenerate
branch (`tau > 1e-200`) the value is a ratio of exponentially scaled Bessel
functions of irrational argument `2*sqrt(beta*gamma)`; it is supplied by the
oracle `gigVal alpha beta gamma = (E[x], E[1/x])` and the claims never depend
on it.  On the degenerate branch the Gamma closed form is used;
`beta/(alpha-1)` at `alpha = 1` is IEEE `beta/0 = +inf` for the strictly
positive `beta` of every caller, modelled by `⊤`. -/
def gigExpectElem (gigVal : ℚ → ℚ → ℚ → ℚ × ℚ) (alpha beta gamma : ℚ) :
    ℚ × WithTop ℚ :=
  if tauCut < gamma then
    ((gigVal alpha beta gamma).1,
      clampNegInf (((gigVal alpha beta gamma).2 : ℚ) : WithTop ℚ))
  else
    (alpha / beta,
      clampNegInf
        (if alpha = 1 then ⊤ else ((beta / (alpha - 1) : ℚ) : WithTop ℚ)))

/-- An element for which `compute_gig_expectations` raises `ValueError`:
degenerate `tau` together with negative shape. -/
def gigBadElem (alpha gamma : ℚ) : Bool :=
  decide (gamma ≤ tauCut) && decide (alpha < 0)

/-- `_gap.compute_gig_expectations` over parallel elementwise arguments
`(alpha, beta, gamma)` (the NumPy broadcasting of `alpha` is resolved
per-element). -/
def compute_gig_expectations (gigVal : ℚ → ℚ → ℚ → ℚ × ℚ)
    (abg : List (ℚ × ℚ × ℚ)) : Except String (List (ℚ × WithTop ℚ)) :=
  if abg.any (fun x => gigBadElem x.1 x.2.2) then
    .error "problem with arguments."
  else
    .ok (abg.map (fun x => gigExpectElem gigVal x.1 x.2.1 x.2.2))

/-- The spec's Gamma closed form: `E[x] = a/rho`, `E[1/x] = rho/(a-1)`
clamped to `+inf` when `a <= 1`. -/
def gammaClosedForm (a rho : ℚ) : ℚ × WithTop ℚ :=
  (a / rho, if a ≤ 1 then ⊤ else ((rho / (a - 1) : ℚ) : WithTop ℚ))

/-- The degenerate branch of `gigExpectElem` is exactly the spec's Gamma
closed form, for positive rate and nonnegative shape. -/
theorem gigExpectElem_degenerate (gigVal : ℚ → ℚ → ℚ → ℚ × ℚ)
    (alpha beta gamma : ℚ) (hb : 0 < beta) (ha : 0 ≤ alpha)
    (hdeg : gamma ≤ tauCut) :
    gigExpectElem gigVal alpha beta gamma = gammaClosedForm alpha beta := by
  unfold gigExpectElem gammaClosedForm
  rw [if_neg (not_lt.mpr hdeg)]
  rcases eq_or_lt_of_le ha with rfl | hapos
  · have h1 : ¬(0:ℚ) = 1 := by norm_num
    rw [if_neg h1, if_pos (by norm_num : (0:ℚ) ≤ 1)]
    unfold clampNegInf
    rw [if_pos]
    rw [← WithTop.coe_zero, WithTop.coe_lt_coe]
    have : (0:ℚ) - 1 < 0 := by norm_num
    exact div_neg_of_pos_of_neg hb (by norm_num)
  · rcases lt_trichotomy alpha 1 with hlt | heq | hgt
    · rw [if_neg (ne_of_lt hlt), if_pos (le_of_lt hlt)]
      unfold clampNegInf
      rw [if_pos]
      rw [← WithTop.coe_zero, WithTop.coe_lt_coe]
      exact div_neg_of_pos_of_neg hb (by linarith)
    · rw [if_pos heq, if_pos (le_of_eq heq)]
      unfold clampNegInf
      rw [if_neg]
      exact not_lt.mpr le_top
    · rw [if_neg (ne_of_gt hgt), if_neg (not_le.mpr hgt)]
      unfold clampNegInf
      rw [if_neg]
      rw [← WithTop.coe_zero, WithTop.coe_lt_coe, not_lt]
      exact div_nonneg (le_of_lt hb) (by linarith)

/-- C2: with strictly positive rates, `compute_gig_expectations` raises
`ValueError` exactly when some degenerate-`tau` element has negative shape;
otherwise it succeeds and every degenerate-`tau` element receives the Gamma
closed form `(a/rho, rho/(a-1))` with `E[1/x]` clamped to `+inf` for
`a <= 1`. -/
theorem compute_gig_expectations_gamma_branch (gigVal : ℚ → ℚ → ℚ → ℚ × ℚ)
    (abg : List (ℚ × ℚ × ℚ)) (hrho : ∀ x ∈ abg, 0 < x.2.1) :
    ((∃ x ∈ abg, x.2.2 ≤ tauCut ∧ x.1 < 0) →
      compute_gig_expectations gigVal abg = .error "problem with arguments.") ∧
    ((∀ x ∈ abg, x.2.2 ≤ tauCut → 0 ≤ x.1) →
      ∃ out, compute_gig_expectations gigVal abg = .ok out ∧
        out.length = abg.length ∧
        ∀ i, i < abg.length →
          (abg.getD i (0, 0, 0)).2.2 ≤ tauCut →
          out.getD i (0, 0) =
            gammaClosedForm (abg.getD i (0, 0, 0)).1
              (abg.getD i (0, 0, 0)).2.1) := by
  constructor
  · rintro ⟨x, hx, hdeg, hneg⟩
    unfold compute_gig_expectations
    rw [if_pos]
    rw [List.any_eq_true]
    exact ⟨x, hx, by
      unfold gigBadElem
      rw [Bool.and_eq_true, decide_eq_true_eq, decide_eq_true_eq]
      exact ⟨hdeg, hneg⟩⟩
  · intro hok
    have hnone : ¬(abg.any (fun x => gigBadElem x.1 x.2.2) = true) := by
      rw [List.any_eq_true]
      rintro ⟨x, hx, hbad⟩
      unfold gigBadElem at hbad
      rw [Bool.and_eq_true, decide_eq_true_eq, decide_eq_true_eq] at hbad
      exact absurd (hok x hx hbad.1) (not_le.mpr hbad.2)
    refine ⟨abg.map (fun x => gigExpectElem gigVal x.1 x.2.1 x.2.2), ?_, by simp, ?_⟩
    · unfold compute_gig_expectations
      rw [if_neg hnone]
    · intro i hi hdeg
      have hlen : i < (abg.map (fun x => gigExpectElem gigVal x.1 x.2.1 x.2.2)).length := by
        simpa using hi
      rw [List.getD_eq_getElem _ _ hlen, List.getD_eq_getElem _ _ hi] at *
      rw [List.getElem_map]
      have hmem : abg[i] ∈ abg := List.getElem_mem _
      exact gigExpectElem_degenerate gigVal _ _ _ (hrho _ hmem)
        (hok _ hmem hdeg) hdeg

theorem compute_gig_expectations_gamma_branch_witness :
    compute_gig_expectations (fun _ _ _ => (0, 0)) [(-1, 2, 0)] =
      .error "problem with arguments." ∧
    ∃ out, compute_gig_expectations (fun _ _ _ => (0, 0)) [(3, 4, 0)] = .ok out ∧
      out.length = 1 ∧
      ∀ i, i < 1 →
        (([((3:ℚ), (4:ℚ), (0:ℚ))].getD i (0, 0, 0)).2.2 ≤ tauCut →
        out.getD i (0, 0) =
          gammaClosedForm ([((3:ℚ), (4:ℚ), (0:ℚ))].getD i (0, 0, 0)).1
            ([((3:ℚ), (4:ℚ), (0:ℚ))].getD i (0, 0, 0)).2.1) :=
  ⟨(compute_gig_expectations_gamma_branch (fun _ _ _ => (0, 0)) [(-1, 2, 0)]
      (by norm_num)).1
      ⟨(-1, 2, 0), by norm_num, by norm_num [tauCut], by norm_num⟩,
    (compute_gig_expectations_gamma_branch (fun _ _ _ => (0, 0)) [(3, 4, 0)]
      (by norm_num)).2
      (by norm_num [tauCut])⟩

/-- `_gap.comp_log_exp`, one element: `log E[exp(-a*u)]` for
`a ~ Gamma(alpha, beta)`, with `np.log` supplied as the oracle `rlog`.
The source fills three disjoint masks (`idx_dir`, `idx_app`, `-idx`); since
`|tmp| <= 1e-12` implies `tmp > -1`, the nested conditional below assigns
exactly the same value to every element. -/
def comp_log_exp (rlog : ℚ → ℚ) (alpha beta U : ℚ) : WithTop ℚ :=
  if -1 < U / beta then
    if 1 / 10 ^ 12 < |U / beta| then
      ((-alpha * rlog (1 + U / beta) : ℚ) : WithTop ℚ)
    else ((-alpha * (U / beta) : ℚ) : WithTop ℚ)
  else ⊤

/-- C3: `comp_log_exp` returns `-alpha*log(1+u/beta)` on the direct branch,
the linear approximation `-alpha*(u/beta)` when `|u/beta| <= 1e-12`, and
exactly `+inf` when `u/beta <= -1`; the three cases cover every input. -/
theorem comp_log_exp_cases (rlog : ℚ → ℚ) (alpha beta U : ℚ)
    (halpha : 0 < alpha) (hbeta : 0 < beta) :
    ((-1 < U / beta ∧ 1 / 10 ^ 12 < |U / beta| →
      comp_log_exp rlog alpha beta U =
        ((-alpha * rlog (1 + U / beta) : ℚ) : WithTop ℚ)) ∧
     (|U / beta| ≤ 1 / 10 ^ 12 →
      comp_log_exp rlog alpha beta U =
        ((-alpha * (U / beta) : ℚ) : WithTop ℚ)) ∧
     (U / beta ≤ -1 → comp_log_exp rlog alpha beta U = ⊤)) ∧
    ((-1 < U / beta ∧ 1 / 10 ^ 12 < |U / beta|) ∨
      |U / beta| ≤ 1 / 10 ^ 12 ∨ U / beta ≤ -1) := by
  refine ⟨⟨?_, ?_, ?_⟩, ?_⟩
  · rintro ⟨h1, h2⟩
    unfold comp_log_exp
    rw [if_pos h1, if_pos h2]
  · intro h
    have h1 : -1 < U / beta := by
      have := abs_le.mp h
      linarith [this.1]
    unfold comp_log_exp
    rw [if_pos h1, if_neg (not_lt.mpr h)]
  · intro h
    unfold comp_log_exp
    rw [if_neg (not_lt.mpr h)]
  · rcases le_or_lt (U / beta) (-1) with h | h
    · exact Or.inr (Or.inr h)
    · rcases le_or_lt (|U / beta|) (1 / 10 ^ 12) with h2 | h2
      · exact Or.inr (Or.inl h2)
      · exact Or.inl ⟨h, h2⟩

theorem comp_log_exp_cases_witness :
    ((-1 < (7:ℚ) / 2 ∧ 1 / 10 ^ 12 < |(7:ℚ) / 2| →
      comp_log_exp (fun _ => 0) 5 2 7 =
        ((-5 * (fun _ => (0:ℚ)) (1 + (7:ℚ) / 2) : ℚ) : WithTop ℚ)) ∧
     (|(7:ℚ) / 2| ≤ 1 / 10 ^ 12 →
      comp_log_exp (fun _ => 0) 5 2 7 =
        ((-5 * ((7:ℚ) / 2) : ℚ) : WithTop ℚ)) ∧
     ((7:ℚ) / 2 ≤ -1 → comp_log_exp (fun _ => 0) 5 2 7 = ⊤)) ∧
    ((-1 < (7:ℚ) / 2 ∧ 1 / 10 ^ 12 < |(7:ℚ) / 2|) ∨
      |(7:ℚ) / 2| ≤ 1 / 10 ^ 12 ∨ (7:ℚ) / 2 ≤ -1) :=
  comp_log_exp_cases (fun _ => 0) 5 2 7 (by norm_num) (by norm_num)

/-- `_gap.compute_gamma_expectation`, one element (`special.psi` and `np.log`
are oracles). -/
def compute_gamma_expectation (psi rlog : ℚ → ℚ) (alpha beta : ℚ) : ℚ × ℚ :=
  (alpha / beta, psi alpha - rlog beta)

/-! ## `sf_gap_nmf.py`: the SF-GaP-NMF engine -/

/-- Oracles for the transcendental special functions the engine calls.
`rexpT` is `np.exp` as applied to a possibly infinite accumulated sum
(`np.exp(np.sum(logEexpa, axis=1))` in `update_w`); the float result at `⊤`
(`exp(inf) = inf`) lies outside the rational model, so the oracle's value
there is unconstrained — no claim depends on it. -/
structure Oracles where
  gigVal : ℚ → ℚ → ℚ → ℚ × ℚ
  psi : ℚ → ℚ
  rlog : ℚ → ℚ
  rexp : ℚ → ℚ
  rexpT : WithTop ℚ → ℚ

/-- `1./x` for IEEE-extended expectations: `1/inf = 0`; on the strictly
positive finite values produced by the moment library, the rational
reciprocal. -/
def invTop : WithTop ℚ → ℚ
  | ⊤ => 0
  | (q : ℚ) => 1 / q

/-- The full state of `SF_GaP_NMF`: data, fixed prior parameters, GIG/Gamma
natural parameters, and the cached moments. -/
structure NMF (F T K L : ℕ) where
  X : Fin F → Fin T → ℚ
  U : Fin F → Fin L → ℚ
  gamma : Fin F → ℚ
  alpha : Fin L → ℚ
  b : ℚ
  beta : ℚ
  rhow : Fin F → Fin K → ℚ
  tauw : Fin F → Fin K → ℚ
  rhoh : Fin K → Fin T → ℚ
  tauh : Fin K → Fin T → ℚ
  rhot : Fin K → ℚ
  taut : Fin K → ℚ
  nua : Fin L → Fin K → ℚ
  rhoa : Fin L → Fin K → ℚ
  Ew : Fin F → Fin K → ℚ
  Ewinv : Fin F → Fin K → WithTop ℚ
  Ewinvinv : Fin F → Fin K → ℚ
  Eh : Fin K → Fin T → ℚ
  Ehinv : Fin K → Fin T → WithTop ℚ
  Ehinvinv : Fin K → Fin T → ℚ
  Et : Fin K → ℚ
  Etinv : Fin K → WithTop ℚ
  Etinvinv : Fin K → ℚ
  Ea : Fin L → Fin K → ℚ
  Eloga : Fin L → Fin K → ℚ
  logEexpa : Fin F → Fin L → Fin K → WithTop ℚ

variable {F T K L : ℕ}

/-- `self.goodk()` on the engine state (default cutoff), with the returned
integer indices re-attached to `Fin K` (they always index into the `K`
columns). -/
def goodkE (st : NMF F T K L) : Option (List (Fin K)) :=
  (goodk (List.ofFn st.Et) defaultCutOff).map
    (fun l => l.filterMap (fun n => if h : n < K then some ⟨n, h⟩ else none))

/-- `SF_GaP_NMF._xbar` restricted to a component list. -/
def xbar (st : NMF F T K L) (gk : List (Fin K)) : Fin F → Fin T → ℚ :=
  fun f t => (gk.map (fun k => st.Ew f k * st.Et k * st.Eh k t)).sum

/-- `SF_GaP_NMF._xtwid` restricted to a component list. -/
def xtwid (st : NMF F T K L) (gk : List (Fin K)) : Fin F → Fin T → ℚ :=
  fun f t => (gk.map (fun k => st.Ewinvinv f k * st.Etinvinv k * st.Ehinvinv k t)).sum

/-- `np.mean` over an `F × T` array. -/
def meanFT (M : Fin F → Fin T → ℚ) : ℚ :=
  (∑ f, ∑ t, M f t) / (F * T)

/-- The `ValueError` precondition of `compute_gig_expectations` over an
indexed grid of (shape, tau) pairs. -/
def gigGridBad {ι : Type} (shape tau : ι → ℚ) : Prop :=
  ∃ i, tau i ≤ tauCut ∧ shape i < 0

instance {ι : Type} [Fintype ι] (shape tau : ι → ℚ) :
    Decidable (gigGridBad shape tau) :=
  inferInstanceAs (Decidable (∃ _, _ ∧ _))

/-- `SF_GaP_NMF.compute_expectations`: recompute all cached moments from the
current natural parameters; `none` models the `ValueError` raised inside
`compute_gig_expectations`. -/
def compute_expectations (o : Oracles) (st : NMF F T K L) :
    Option (NMF F T K L) :=
  if gigGridBad (fun p : Fin F × Fin K => st.gamma p.1)
        (fun p => st.tauw p.1 p.2) ∨
      gigGridBad (fun _ : Fin K × Fin T => st.b) (fun p => st.tauh p.1 p.2) ∨
      gigGridBad (fun _ : Fin K => st.beta / K) st.taut then
    none
  else
    some { st with
      Ew := fun f k =>
        (gigExpectElem o.gigVal (st.gamma f) (st.rhow f k) (st.tauw f k)).1
      Ewinv := fun f k =>
        (gigExpectElem o.gigVal (st.gamma f) (st.rhow f k) (st.tauw f k)).2
      Ewinvinv := fun f k =>
        invTop (gigExpectElem o.gigVal (st.gamma f) (st.rhow f k) (st.tauw f k)).2
      Eh := fun k t =>
        (gigExpectElem o.gigVal st.b (st.rhoh k t) (st.tauh k t)).1
      Ehinv := fun k t =>
        (gigExpectElem o.gigVal st.b (st.rhoh k t) (st.tauh k t)).2
      Ehinvinv := fun k t =>
        invTop (gigExpectElem o.gigVal st.b (st.rhoh k t) (st.tauh k t)).2
      Et := fun k =>
        (gigExpectElem o.gigVal (st.beta / K) (st.rhot k) (st.taut k)).1
      Etinv := fun k =>
        (gigExpectElem o.gigVal (st.beta / K) (st.rhot k) (st.taut k)).2
      Etinvinv := fun k =>
        invTop (gigExpectElem o.gigVal (st.beta / K) (st.rhot k) (st.taut k)).2
      Ea := fun l k =>
        (compute_gamma_expectation o.psi o.rlog (st.nua l k) (st.rhoa l k)).1
      Eloga := fun l k =>
        (compute_gamma_expectation o.psi o.rlog (st.nua l k) (st.rhoa l k)).2 }

/-- `SF_GaP_NMF._init` (together with the `__init__` bookkeeping before it).
The raw `np.random.gamma(smoothness, 1/smoothness)` draws are passed in
explicitly and scaled exactly as in the source; the moment caches are then
computed and `logEexpa` is initialised to `np.zeros((F, L, K))`. -/
def nmf_init (o : Oracles) (X : Fin F → Fin T → ℚ) (U : Fin F → Fin L → ℚ)
    (gamma : Fin F → ℚ) (alpha : Fin L → ℚ) (b beta : ℚ)
    (dw tw : Fin F → Fin K → ℚ) (dh th : Fin K → Fin T → ℚ)
    (dt tt : Fin K → ℚ) (dn dr : Fin L → Fin K → ℚ) :
    Option (NMF F T K L) :=
  let st0 : NMF F T K L := {
    X := X, U := U, gamma := gamma, alpha := alpha, b := b, beta := beta,
    rhow := fun f k => 10000 * dw f k,
    tauw := fun f k => 10000 * tw f k,
    rhoh := fun k t => 10000 * dh k t,
    tauh := fun k t => 10000 * th k t,
    rhot := fun k => K * 10000 * dt k,
    taut := fun k => 1 / K * 10000 * tt k,
    nua := fun l k => 10000 * dn l k,
    rhoa := fun l k => 10000 * dr l k,
    Ew := fun _ _ => 0, Ewinv := fun _ _ => 0, Ewinvinv := fun _ _ => 0,
    Eh := fun _ _ => 0, Ehinv := fun _ _ => 0, Ehinvinv := fun _ _ => 0,
    Et := fun _ => 0, Etinv := fun _ => 0, Etinvinv := fun _ => 0,
    Ea := fun _ _ => 0, Eloga := fun _ _ => 0,
    logEexpa := fun _ _ _ => 0 }
  (compute_expectations o st0).map
    (fun st1 => { st1 with logEexpa := fun _ _ _ => 0 })

/-- `SF_GaP_NMF.update_a(k)`.  The L-BFGS-B search is abstracted by its
returned iterate `thetaHat` (split as in the source into the `log nu` and
`log rho` halves); the objective/gradient closures and the `warnflag`
diagnostics only affect logging, not state.  The two `assert`s on positivity
of the exponentiated parameters are modelled by `none` on failure. -/
def update_a (o : Oracles) (thetaHat : (Fin L → ℚ) × (Fin L → ℚ))
    (k : Fin K) (st : NMF F T K L) : Option (NMF F T K L) :=
  let nua' := fun l => o.rexp (thetaHat.1 l)
  let rhoa' := fun l => o.rexp (thetaHat.2 l)
  if (∀ l, 0 < nua' l) ∧ (∀ l, 0 < rhoa' l) then
    some { st with
      nua := fun l k2 => if k2 = k then nua' l else st.nua l k2,
      rhoa := fun l k2 => if k2 = k then rhoa' l else st.rhoa l k2,
      Ea := fun l k2 => if k2 = k then
          (compute_gamma_expectation o.psi o.rlog (nua' l) (rhoa' l)).1
        else st.Ea l k2,
      Eloga := fun l k2 => if k2 = k then
          (compute_gamma_expectation o.psi o.rlog (nua' l) (rhoa' l)).2
        else st.Eloga l k2,
      logEexpa := fun f l k2 => if k2 = k then
          comp_log_exp o.rlog (nua' l) (rhoa' l) (st.U f l)
        else st.logEexpa f l k2 }
  else none

/-- The clamp `tau[tau < 1e-100] = 0` applied elementwise to a whole
`tau` array at the end of each of the three updates. -/
def clampTau (x : ℚ) : ℚ :=
  if x < 1 / 10 ^ 100 then 0 else x

theorem clampTau_cases (x : ℚ) :
    clampTau x = 0 ∨ 1 / 10 ^ 100 ≤ clampTau x := by
  unfold clampTau
  split
  · exact Or.inl rfl
  · exact Or.inr (not_lt.mp (by assumption))

/-- `SF_GaP_NMF.update_w`.  Returns the new state together with the printed
"optimal scale" `c`.  `none` models `IndexError` inside `goodk` or
`ValueError` inside `compute_gig_expectations` (the `isnan` debug print is
diagnostic only). -/
def update_w (o : Oracles) (st : NMF F T K L) : Option (NMF F T K L × ℚ) :=
  match goodkE st with
  | none => none
  | some gk =>
    let xt := xtwid st gk
    let c := meanFT (fun f t => st.X f t / xt f t)
    let xxtwidinvsq := fun f t => st.X f t / c * ((xt f t)⁻¹) ^ 2
    let xbarinv := fun f t => 1 / xbar st gk f t
    let rhow' := fun f k => if k ∈ gk then
        st.gamma f * o.rexpT (∑ l, st.logEexpa f l k) +
          ∑ t, xbarinv f t * (st.Et k * st.Eh k t)
      else st.rhow f k
    let tauwRaw := fun f k => if k ∈ gk then
        st.Ewinvinv f k ^ 2 *
          ∑ t, xxtwidinvsq f t * (st.Etinvinv k * st.Ehinvinv k t)
      else st.tauw f k
    let tauw' := fun f k => clampTau (tauwRaw f k)
    if gigGridBad (fun p : Fin F × Fin K => st.gamma p.1)
        (fun p => if p.2 ∈ gk then tauw' p.1 p.2 else 1) then none
    else
      some ({ st with
        rhow := rhow', tauw := tauw',
        Ew := fun f k => if k ∈ gk then
            (gigExpectElem o.gigVal (st.gamma f) (rhow' f k) (tauw' f k)).1
          else st.Ew f k,
        Ewinv := fun f k => if k ∈ gk then
            (gigExpectElem o.gigVal (st.gamma f) (rhow' f k) (tauw' f k)).2
          else st.Ewinv f k,
        Ewinvinv := fun f k => if k ∈ gk then
            invTop (gigExpectElem o.gigVal (st.gamma f) (rhow' f k) (tauw' f k)).2
          else st.Ewinvinv f k }, c)

/-- `SF_GaP_NMF.update_h` (same conventions as `update_w`; the
`ValueError` check ranges over the `[goodk]` slice only, so columns outside
`gk` are given a dummy non-degenerate `tau = 1` in the check). -/
def update_h (o : Oracles) (st : NMF F T K L) : Option (NMF F T K L × ℚ) :=
  match goodkE st with
  | none => none
  | some gk =>
    let xt := xtwid st gk
    let c := meanFT (fun f t => st.X f t / xt f t)
    let xxtwidinvsq := fun f t => st.X f t / c * ((xt f t)⁻¹) ^ 2
    let xbarinv := fun f t => 1 / xbar st gk f t
    let rhoh' := fun k t => if k ∈ gk then
        st.b + ∑ f, (st.Et k * st.Ew f k) * xbarinv f t
      else st.rhoh k t
    let tauhRaw := fun k t => if k ∈ gk then
        st.Ehinvinv k t ^ 2 *
          ∑ f, (st.Etinvinv k * st.Ewinvinv f k) * xxtwidinvsq f t
      else st.tauh k t
    let tauh' := fun k t => clampTau (tauhRaw k t)
    if gigGridBad (fun _ : Fin K × Fin T => st.b)
        (fun p => if p.1 ∈ gk then tauh' p.1 p.2 else 1) then none
    else
      some ({ st with
        rhoh := rhoh', tauh := tauh',
        Eh := fun k t => if k ∈ gk then
            (gigExpectElem o.gigVal st.b (rhoh' k t) (tauh' k t)).1
          else st.Eh k t,
        Ehinv := fun k t => if k ∈ gk then
            (gigExpectElem o.gigVal st.b (rhoh' k t) (tauh' k t)).2
          else st.Ehinv k t,
        Ehinvinv := fun k t => if k ∈ gk then
            invTop (gigExpectElem o.gigVal st.b (rhoh' k t) (tauh' k t)).2
          else st.Ehinvinv k t }, c)

/-- `SF_GaP_NMF.update_theta`.  NOTE (faithful to the source): the local
variable named `xtwid` is assigned `self._xbar(goodk)`, so both the scale `c`
and the `tau` data-term weight are computed from the arithmetic-mean
reconstruction, unlike `update_w`/`update_h` which use `self._xtwid(goodk)`. -/
def update_theta (o : Oracles) (st : NMF F T K L) : Option (NMF F T K L × ℚ) :=
  match goodkE st with
  | none => none
  | some gk =>
    let xt := xbar st gk
    let c := meanFT (fun f t => st.X f t / xt f t)
    let xxtwidinvsq := fun f t => st.X f t / c * ((xt f t)⁻¹) ^ 2
    let xbarinv := fun f t => 1 / xbar st gk f t
    let rhot' := fun k => if k ∈ gk then
        st.beta + ∑ t, (∑ f, st.Ew f k * xbarinv f t) * st.Eh k t
      else st.rhot k
    let tautRaw := fun k => if k ∈ gk then
        st.Etinvinv k ^ 2 *
          ∑ t, (∑ f, st.Ewinvinv f k * xxtwidinvsq f t) * st.Ehinvinv k t
      else st.taut k
    let taut' := fun k => clampTau (tautRaw k)
    if gigGridBad (fun _ : Fin K => st.beta / K)
        (fun k => if k ∈ gk then taut' k else 1) then none
    else
      some ({ st with
        rhot := rhot', taut := taut',
        Et := fun k => if k ∈ gk then
            (gigExpectElem o.gigVal (st.beta / K) (rhot' k) (taut' k)).1
          else st.Et k,
        Etinv := fun k => if k ∈ gk then
            (gigExpectElem o.gigVal (st.beta / K) (rhot' k) (taut' k)).2
          else st.Etinv k,
        Etinvinv := fun k => if k ∈ gk then
            invTop (gigExpectElem o.gigVal (st.beta / K) (rhot' k) (taut' k)).2
          else st.Etinvinv k }, c)

/-- `SF_GaP_NMF.clear_badk`: reset the W/H/a posteriors of the components
outside `goodk` to their priors (`badk = np.setdiff1d(np.arange(K), goodk)`),
recompute all moments, then zero the `logEexpa` slabs of those components.
The source does not touch `rhot`/`taut`. -/
def clear_badk (o : Oracles) (st : NMF F T K L) : Option (NMF F T K L) :=
  match goodkE st with
  | none => none
  | some gk =>
    let st1 := { st with
      rhow := fun f k => if k ∈ gk then st.rhow f k else st.gamma f,
      tauw := fun f k => if k ∈ gk then st.tauw f k else 0,
      rhoh := fun k t => if k ∈ gk then st.rhoh k t else st.b,
      tauh := fun k t => if k ∈ gk then st.tauh k t else 0,
      nua := fun l k => if k ∈ gk then st.nua l k else st.alpha l,
      rhoa := fun l k => if k ∈ gk then st.rhoa l k else st.alpha l }
    (compute_expectations o st1).map (fun st2 =>
      { st2 with logEexpa := fun f l k =>
          if k ∈ gk then st2.logEexpa f l k else 0 })

/-- C8: after each of `update_w`, `update_h` and `update_theta` returns, no
entry of the corresponding `tau` array lies strictly between 0 and `1e-100`:
every entry is either exactly 0 or at least `1e-100` (the final
`tau[tau < 1e-100] = 0` clamp acts on the whole array). -/
theorem tau_clamped_after_updates (o : Oracles) (st : NMF F T K L) :
    (∀ st' c, update_w o st = some (st', c) →
      ∀ f k, st'.tauw f k = 0 ∨ 1 / 10 ^ 100 ≤ st'.tauw f k) ∧
    (∀ st' c, update_h o st = some (st', c) →
      ∀ k t, st'.tauh k t = 0 ∨ 1 / 10 ^ 100 ≤ st'.tauh k t) ∧
    (∀ st' c, update_theta o st = some (st', c) →
      ∀ k, st'.taut k = 0 ∨ 1 / 10 ^ 100 ≤ st'.taut k) := by
  refine ⟨?_, ?_, ?_⟩
  · intro st' c h
    unfold update_w at h
    rcases hgk : goodkE st with _ | gk <;> rw [hgk] at h
    · cases h
    · dsimp only at h
      split at h
      · cases h
      · simp only [Option.some.injEq, Prod.mk.injEq] at h
        obtain ⟨h1, _⟩ := h
        intro f k
        rw [← h1]
        exact clampTau_cases _
  · intro st' c h
    unfold update_h at h
    rcases hgk : goodkE st with _ | gk <;> rw [hgk] at h
    · cases h
    · dsimp only at h
      split at h
      · cases h
      · simp only [Option.some.injEq, Prod.mk.injEq] at h
        obtain ⟨h1, _⟩ := h
        intro k t
        rw [← h1]
        exact clampTau_cases _
  · intro st' c h
    unfold update_theta at h
    rcases hgk : goodkE st with _ | gk <;> rw [hgk] at h
    · cases h
    · dsimp only at h
      split at h
      · cases h
      · simp only [Option.some.injEq, Prod.mk.injEq] at h
        obtain ⟨h1, _⟩ := h
        intro k
        rw [← h1]
        exact clampTau_cases _

/-- Constant oracles used for the concrete evaluations below. -/
def oracles1 : Oracles :=
  { gigVal := fun _ _ _ => (1, 1), psi := fun _ => 0, rlog := fun _ => 0,
    rexp := fun _ => 1, rexpT := fun _ => 1 }

/-- A tiny all-ones engine state (`F = T = K = L = 1`). -/
def nmf1 : NMF 1 1 1 1 :=
  { X := fun _ _ => 1, U := fun _ _ => 1, gamma := fun _ => 1,
    alpha := fun _ => 1, b := 1, beta := 1,
    rhow := fun _ _ => 1, tauw := fun _ _ => 1, rhoh := fun _ _ => 1,
    tauh := fun _ _ => 1, rhot := fun _ => 1, taut := fun _ => 1,
    nua := fun _ _ => 1, rhoa := fun _ _ => 1,
    Ew := fun _ _ => 1, Ewinv := fun _ _ => 1, Ewinvinv := fun _ _ => 1,
    Eh := fun _ _ => 1, Ehinv := fun _ _ => 1, Ehinvinv := fun _ _ => 1,
    Et := fun _ => 1, Etinv := fun _ => 1, Etinvinv := fun _ => 1,
    Ea := fun _ _ => 1, Eloga := fun _ _ => 1, logEexpa := fun _ _ _ => 0 }

theorem goodkE_nmf1 : goodkE nmf1 = some [0] := by
  norm_num [goodkE, nmf1, goodk, goodkIdx, argsortDesc, idxDesc, defaultCutOff,
    List.insertionSort, List.orderedInsert, List.range_succ, List.filter,
    List.ofFn_succ, List.ofFn_zero, List.filterMap]

theorem tau_clamped_after_updates_witness :
    (∃ st' c, update_w oracles1 nmf1 = some (st', c) ∧
      ∀ f k, st'.tauw f k = 0 ∨ 1 / 10 ^ 100 ≤ st'.tauw f k) ∧
    (∃ st' c, update_h oracles1 nmf1 = some (st', c) ∧
      ∀ k t, st'.tauh k t = 0 ∨ 1 / 10 ^ 100 ≤ st'.tauh k t) ∧
    (∃ st' c, update_theta oracles1 nmf1 = some (st', c) ∧
      ∀ k, st'.taut k = 0 ∨ 1 / 10 ^ 100 ≤ st'.taut k) := by
  refine ⟨?_, ?_, ?_⟩
  · have h : ∃ st' c, update_w oracles1 nmf1 = some (st', c) := by
      unfold update_w
      rw [goodkE_nmf1]
      dsimp only
      rw [if_neg]
      · exact ⟨_, _, rfl⟩
      · unfold gigGridBad
        rintro ⟨i, _, hlt⟩
        simp only [nmf1] at hlt
        norm_num at hlt
    obtain ⟨st', c, h⟩ := h
    exact ⟨st', c, h, (tau_clamped_after_updates oracles1 nmf1).1 st' c h⟩
  · have h : ∃ st' c, update_h oracles1 nmf1 = some (st', c) := by
      unfold update_h
      rw [goodkE_nmf1]
      dsimp only
      rw [if_neg]
      · exact ⟨_, _, rfl⟩
      · unfold gigGridBad
        rintro ⟨i, _, hlt⟩
        simp only [nmf1] at hlt
        norm_num at hlt
    obtain ⟨st', c, h⟩ := h
    exact ⟨st', c, h, (tau_clamped_after_updates oracles1 nmf1).2.1 st' c h⟩
  · have h : ∃ st' c, update_theta oracles1 nmf1 = some (st', c) := by
      unfold update_theta
      rw [goodkE_nmf1]
      dsimp only
      rw [if_neg]
      · exact ⟨_, _, rfl⟩
      · unfold gigGridBad
        rintro ⟨i, _, hlt⟩
        simp only [nmf1] at hlt
        norm_num at hlt
    obtain ⟨st', c, h⟩ := h
    exact ⟨st', c, h, (tau_clamped_after_updates oracles1 nmf1).2.2 st' c h⟩

/-- `nmf1` with `E[W] = 2`, so the arithmetic-mean reconstruction
`x̄ = 2` differs from the harmonic-mean-like reconstruction `x̃ = 1`. -/
def nmf2 : NMF 1 1 1 1 := { nmf1 with Ew := fun _ _ => 2 }

theorem goodkE_nmf2 : goodkE nmf2 = some [0] := by
  norm_num [goodkE, nmf2, nmf1, goodk, goodkIdx, argsortDesc, idxDesc,
    defaultCutOff, List.insertionSort, List.orderedInsert, List.range_succ,
    List.filter, List.ofFn_succ, List.ofFn_zero, List.filterMap]

/-- C4: at a state where the two reconstructions differ, `update_w` and
`update_h` compute the "optimal scale" `c` (and hence the `X/c * xtwid**(-2)`
data-term weight) from `_xtwid(goodk)`, but `update_theta` assigns
`xtwid = self._xbar(goodk)` and so computes both from the arithmetic-mean
reconstruction instead. -/
theorem update_theta_scale_uses_xbar :
    (∃ st' c, update_w oracles1 nmf2 = some (st', c) ∧
      c = meanFT (fun f t => nmf2.X f t / xtwid nmf2 [0] f t)) ∧
    (∃ st' c, update_h oracles1 nmf2 = some (st', c) ∧
      c = meanFT (fun f t => nmf2.X f t / xtwid nmf2 [0] f t)) ∧
    (∃ st' c, update_theta oracles1 nmf2 = some (st', c) ∧
      c = meanFT (fun f t => nmf2.X f t / xbar nmf2 [0] f t) ∧
      c ≠ meanFT (fun f t => nmf2.X f t / xtwid nmf2 [0] f t)) := by
  refine ⟨?_, ?_, ?_⟩
  · unfold update_w
    rw [goodkE_nmf2]
    dsimp only
    rw [if_neg]
    · exact ⟨_, _, rfl, rfl⟩
    · unfold gigGridBad
      rintro ⟨i, _, hlt⟩
      simp only [nmf2, nmf1] at hlt
      norm_num at hlt
  · unfold update_h
    rw [goodkE_nmf2]
    dsimp only
    rw [if_neg]
    · exact ⟨_, _, rfl, rfl⟩
    · unfold gigGridBad
      rintro ⟨i, _, hlt⟩
      simp only [nmf2, nmf1] at hlt
      norm_num at hlt
  · refine ?_
    have hne : meanFT (fun f t => nmf2.X f t / xbar nmf2 [0] f t) ≠
        meanFT (fun f t => nmf2.X f t / xtwid nmf2 [0] f t) := by
      norm_num [meanFT, xbar, xtwid, nmf2, nmf1, Fin.sum_univ_one]
    unfold update_theta
    rw [goodkE_nmf2]
    dsimp only
    rw [if_neg]
    · exact ⟨_, _, rfl, rfl, hne⟩
    · unfold gigGridBad
      rintro ⟨i, _, hlt⟩
      simp only [nmf2, nmf1] at hlt
      norm_num at hlt

/-- C5 (amended): after `clear_badk`, each component outside `goodk` has its
W/H `tau` set to exactly 0, its W/H `rho` and its `(nu, rho)` activation
parameters reset to the priors, its `logEexpa` slab zeroed, and its W/H
moments equal to the pure-Gamma closed form at the prior shape/rate.
The source does not touch `rhot`/`taut` (see the counterexample below). -/
theorem clear_badk_resets_w_h_a (o : Oracles) (st : NMF F T K L)
    (hgamma : ∀ f, 0 < st.gamma f) (hb : 0 < st.b) (hbetaK : 0 ≤ st.beta / K)
    (gk : List (Fin K)) (hgk : goodkE st = some gk) :
    ∃ st', clear_badk o st = some st' ∧
      ∀ k, k ∉ gk →
        (∀ f, st'.tauw f k = 0 ∧ st'.rhow f k = st.gamma f ∧
          (st'.Ew f k, st'.Ewinv f k) =
            gammaClosedForm (st.gamma f) (st.gamma f)) ∧
        (∀ t, st'.tauh k t = 0 ∧ st'.rhoh k t = st.b ∧
          (st'.Eh k t, st'.Ehinv k t) = gammaClosedForm st.b st.b) ∧
        (∀ l, st'.nua l k = st.alpha l ∧ st'.rhoa l k = st.alpha l) ∧
        (∀ f l, st'.logEexpa f l k = 0) := by
  have htau0 : (0 : ℚ) ≤ tauCut := by norm_num [tauCut]
  unfold clear_badk
  rw [hgk]
  dsimp only
  unfold compute_expectations
  rw [if_neg]
  · refine ⟨_, rfl, ?_⟩
    intro k hk
    dsimp only
    refine ⟨fun f => ⟨?_, ?_, ?_⟩, fun t => ⟨?_, ?_, ?_⟩,
      fun l => ⟨?_, ?_⟩, fun f l => ?_⟩
    all_goals simp only [if_neg hk]
    · rw [gigExpectElem_degenerate o.gigVal (st.gamma f) (st.gamma f) 0
        (hgamma f) (le_of_lt (hgamma f)) htau0]
    · rw [gigExpectElem_degenerate o.gigVal st.b st.b 0 hb (le_of_lt hb) htau0]
  · unfold gigGridBad
    rintro (⟨i, _, hlt⟩ | ⟨i, _, hlt⟩ | ⟨i, _, hlt⟩)
    · exact absurd hlt (not_lt.mpr (le_of_lt (hgamma i.1)))
    · exact absurd hlt (not_lt.mpr (le_of_lt hb))
    · exact absurd hlt (not_lt.mpr hbetaK)

/-- A state with `K = 2` whose second component's power `1e-7` falls below
the `goodk` threshold (all other entries are 1). -/
def nmf3 : NMF 1 1 2 1 :=
  { X := fun _ _ => 1, U := fun _ _ => 1, gamma := fun _ => 1,
    alpha := fun _ => 1, b := 1, beta := 1,
    rhow := fun _ _ => 1, tauw := fun _ _ => 1, rhoh := fun _ _ => 1,
    tauh := fun _ _ => 1, rhot := fun _ => 1, taut := fun _ => 1,
    nua := fun _ _ => 1, rhoa := fun _ _ => 1,
    Ew := fun _ _ => 1, Ewinv := fun _ _ => 1, Ewinvinv := fun _ _ => 1,
    Eh := fun _ _ => 1, Ehinv := fun _ _ => 1, Ehinvinv := fun _ _ => 1,
    Et := fun k => if k = 0 then 1 else 1 / 10 ^ 7,
    Etinv := fun _ => 1, Etinvinv := fun _ => 1,
    Ea := fun _ _ => 1, Eloga := fun _ _ => 1, logEexpa := fun _ _ _ => 0 }

theorem goodkE_nmf3 : goodkE nmf3 = some [0] := by
  norm_num [goodkE, nmf3, goodk, goodkIdx, argsortDesc, idxDesc, defaultCutOff,
    List.insertionSort, List.orderedInsert, List.range_succ, List.filter,
    List.ofFn_succ, List.ofFn_zero, List.filterMap, Fin.isValue]

theorem clear_badk_resets_w_h_a_witness :
    ∃ st', clear_badk oracles1 nmf3 = some st' ∧
      ∀ k, k ∉ ([0] : List (Fin 2)) →
        (∀ f, st'.tauw f k = 0 ∧ st'.rhow f k = nmf3.gamma f ∧
          (st'.Ew f k, st'.Ewinv f k) =
            gammaClosedForm (nmf3.gamma f) (nmf3.gamma f)) ∧
        (∀ t, st'.tauh k t = 0 ∧ st'.rhoh k t = nmf3.b ∧
          (st'.Eh k t, st'.Ehinv k t) = gammaClosedForm nmf3.b nmf3.b) ∧
        (∀ l, st'.nua l k = nmf3.alpha l ∧ st'.rhoa l k = nmf3.alpha l) ∧
        (∀ f l, st'.logEexpa f l k = 0) :=
  clear_badk_resets_w_h_a oracles1 nmf3
    (fun _ => by norm_num [nmf3]) (by norm_num [nmf3]) (by norm_num [nmf3])
    [0] goodkE_nmf3

/-- C5 counterexample: at `nmf3`, component 1 is outside `goodk = [0]`, yet
after `clear_badk` its `taut` natural parameter is still 1, not 0 (the source
never resets `rhot`/`taut`). -/
theorem clear_badk_leaves_taut_unreset :
    ∃ st', clear_badk oracles1 nmf3 = some st' ∧
      goodkE nmf3 = some [0] ∧ (1 : Fin 2) ∉ ([0] : List (Fin 2)) ∧
      st'.taut 1 = 1 ∧ st'.taut 1 ≠ 0 := by
  unfold clear_badk
  rw [goodkE_nmf3]
  dsimp only
  unfold compute_expectations
  rw [if_neg]
  · refine ⟨_, rfl, rfl, by decide, ?_, ?_⟩
    · show nmf3.taut 1 = 1
      norm_num [nmf3]
    · show nmf3.taut 1 ≠ 0
      norm_num [nmf3]
  · unfold gigGridBad
    rintro (⟨i, _, hlt⟩ | ⟨i, _, hlt⟩ | ⟨i, _, hlt⟩) <;>
      simp only [nmf3] at hlt <;> norm_num at hlt

/-- C6 (amended): each `update_a(k)` call does refresh the cached slab:
after it returns, `logEexpa[:,:,k]` equals `comp_log_exp` at the new natural
parameters.  (Immediately after construction the cache is instead all zeros —
see the counterexample below.) -/
theorem update_a_refreshes_logEexpa (o : Oracles)
    (thetaHat : (Fin L → ℚ) × (Fin L → ℚ)) (k : Fin K)
    (st st' : NMF F T K L) (h : update_a o thetaHat k st = some st') :
    ∀ f l, st'.logEexpa f l k =
      comp_log_exp o.rlog (st'.nua l k) (st'.rhoa l k) (st'.U f l) := by
  unfold update_a at h
  dsimp only at h
  split at h
  · simp only [Option.some.injEq] at h
    intro f l
    rw [← h]
    dsimp only
    rw [if_pos rfl, if_pos rfl, if_pos rfl]
  · cases h

theorem update_a_refreshes_logEexpa_witness :
    ∃ st', update_a oracles1 (fun _ => 0, fun _ => 0) 0 nmf1 = some st' ∧
      ∀ f l, st'.logEexpa f l 0 =
        comp_log_exp oracles1.rlog (st'.nua l 0) (st'.rhoa l 0) (st'.U f l) := by
  have h : ∃ st', update_a oracles1 (fun _ => 0, fun _ => 0) 0 nmf1 = some st' := by
    unfold update_a
    rw [if_pos]
    · exact ⟨_, rfl⟩
    · constructor <;> intro l <;> norm_num [oracles1]
  obtain ⟨st', h⟩ := h
  exact ⟨st', h, update_a_refreshes_logEexpa oracles1 _ 0 nmf1 st' h⟩

/-- C6 counterexample: immediately after construction (`_init`), the
`logEexpa` cache is `np.zeros((F, L, K))`, which differs from
`comp_log_exp(nua[:,k], rhoa[:,k], U)` at the freshly drawn natural
parameters even for a good component `k` — here `U = -2` and
`nua = rhoa = 1` give `comp_log_exp = +inf` while the cache holds 0. -/
theorem init_logEexpa_stale :
    ∃ st : NMF 1 1 1 1,
      nmf_init oracles1 (fun _ _ => 1) (fun _ _ => -2) (fun _ => 1)
        (fun _ => 1) 1 1
        (fun _ _ => 1 / 10000) (fun _ _ => 1 / 10000)
        (fun _ _ => 1 / 10000) (fun _ _ => 1 / 10000)
        (fun _ => 1 / 10000) (fun _ => 1 / 10000)
        (fun _ _ => 1 / 10000) (fun _ _ => 1 / 10000) = some st ∧
      goodkE st = some [0] ∧
      st.logEexpa 0 0 0 = ((0 : ℚ) : WithTop ℚ) ∧
      comp_log_exp oracles1.rlog (st.nua 0 0) (st.rhoa 0 0) (st.U 0 0) = ⊤ ∧
      st.logEexpa 0 0 0 ≠
        comp_log_exp oracles1.rlog (st.nua 0 0) (st.rhoa 0 0) (st.U 0 0) := by
  unfold nmf_init
  dsimp only
  unfold compute_expectations
  rw [if_neg]
  · refine ⟨_, rfl, ?_, rfl, ?_, ?_⟩
    · norm_num [goodkE, goodk, goodkIdx, argsortDesc, idxDesc, defaultCutOff,
        List.insertionSort, List.orderedInsert, List.range_succ, List.filter,
        List.ofFn_succ, List.ofFn_zero, List.filterMap, gigExpectElem,
        tauCut, oracles1, invTop, compute_gamma_expectation]
    · show comp_log_exp oracles1.rlog (10000 * (1 / 10000))
        (10000 * (1 / 10000)) (-2) = ⊤
      norm_num [comp_log_exp]
    · intro hcontra
      rw [show comp_log_exp oracles1.rlog (10000 * (1 / 10000))
          (10000 * (1 / 10000)) (-2) = ⊤ by norm_num [comp_log_exp]] at hcontra
      exact (WithTop.coe_ne_top) hcontra
  · unfold gigGridBad
    rintro (⟨i, hle, _⟩ | ⟨i, hle, _⟩ | ⟨i, hle, _⟩) <;> norm_num [tauCut] at hle

/-! ## `dict_prior.py`: the SF dictionary-prior engine -/

/-- The state of `SF_Dict`: data `V = log W`, model parameters
`(U, alpha, gamma)`, variational parameters `(mu, r)` with their moment
caches, the second-order convergence trackers (initialised to `np.inf`,
hence `WithTop ℚ`), and the reported objective. -/
structure SFDict (T F L : ℕ) where
  V : Fin T → Fin F → ℚ
  U : Fin L → Fin F → ℚ
  alpha : Fin L → ℚ
  gamma : Fin F → ℚ
  mu : Fin T → Fin L → ℚ
  r : Fin T → Fin L → ℚ
  EA : Fin T → Fin L → ℚ
  EA2 : Fin T → Fin L → ℚ
  ElogA : Fin T → Fin L → ℚ
  old_mu_inc : WithTop ℚ
  old_r_inc : WithTop ℚ
  old_U_inc : WithTop ℚ
  old_gamma_inc : WithTop ℚ
  old_alpha_inc : WithTop ℚ
  obj : ℚ

variable {T F L : ℕ}

/-- `Eres = V - EA·U + outer(EA[:,l], U[l,:])`, computed once before the
per-frame loop of `update_phi`. -/
def eres (st : SFDict T F L) (l : Fin L) : Fin T → Fin F → ℚ :=
  fun t f => st.V t f - (∑ l2, st.EA t l2 * st.U l2 f) + st.EA t l * st.U l f

/-- The second derivative `_df2(phi, t)` of the per-frame objective of
`update_phi` (`np.exp` is the oracle `rexp`): `-(lcoef + 4*qcoef)` with
`lcoef = exp(phi)*(sum(Eres[t,:]*U[l,:]*gamma) - alpha[l])` and
`qcoef = -1/2*exp(2*phi)*sum(gamma*U[l,:]**2)`. -/
def df2 (rexp : ℚ → ℚ) (st : SFDict T F L) (l : Fin L) (phi : ℚ)
    (t : Fin T) : ℚ :=
  -((rexp phi * ((∑ f, eres st l t f * st.U l f * st.gamma f) - st.alpha l)) +
    4 * (-1 / 2 * rexp (2 * phi) * (∑ f, st.gamma f * st.U l f ^ 2)))

/-- `SF_Dict.update_phi(l)`.  The two scalar minimisers are abstracted by
their returned iterates: `lb t` is the L-BFGS-B result for frame `t` and
`br t` the Brent fallback, consulted exactly when the curvature `_df2` at the
L-BFGS-B iterate is nonpositive (the gradient-check logging is state-free).
`none` models the `AssertionError` when some final `r[t,l]` is not positive.
The frames are independent: `_f`/`_df2` close over the fixed `Eres`. -/
def update_phi (rexp : ℚ → ℚ) (lb br : Fin T → ℚ) (l : Fin L)
    (st : SFDict T F L) : Option (SFDict T F L) :=
  let muNew : Fin T → ℚ := fun t =>
    if df2 rexp st l (lb t) t ≤ 0 then br t else lb t
  let rNew : Fin T → ℚ := fun t => df2 rexp st l (muNew t) t
  if ∀ t, 0 < rNew t then
    some { st with
      mu := fun t l2 => if l2 = l then muNew t else st.mu t l2,
      r := fun t l2 => if l2 = l then rNew t else st.r t l2,
      EA := fun t l2 => if l2 = l then rexp (muNew t + 1 / (2 * rNew t))
        else st.EA t l2,
      EA2 := fun t l2 => if l2 = l then rexp (2 * muNew t + 2 / rNew t)
        else st.EA2 t l2,
      ElogA := fun t l2 => if l2 = l then muNew t else st.ElogA t l2 }
  else none

/-- C7: whenever `update_phi(l)` returns (the assertion passed), the cached
moments of atom `l` satisfy `EA = exp(mu + 1/(2r))`, `EA2 = exp(2mu + 2/r)`,
`ElogA = mu`, and every `r[t,l]` is strictly positive. -/
theorem update_phi_refreshes_moments (rexp : ℚ → ℚ) (lb br : Fin T → ℚ)
    (l : Fin L) (st st' : SFDict T F L)
    (h : update_phi rexp lb br l st = some st') :
    ∀ t, st'.EA t l = rexp (st'.mu t l + 1 / (2 * st'.r t l)) ∧
      st'.EA2 t l = rexp (2 * st'.mu t l + 2 / st'.r t l) ∧
      st'.ElogA t l = st'.mu t l ∧ 0 < st'.r t l := by
  unfold update_phi at h
  dsimp only at h
  split at h
  · simp only [Option.some.injEq] at h
    intro t
    rw [← h]
    dsimp only
    simp only [if_pos rfl]
    refine ⟨rfl, rfl, rfl, ?_⟩
    rename_i hpos
    exact hpos t
  · cases h

/-- A tiny dictionary-prior state (`T = F = L = 1`) on which the curvature at
`phi = 0` is `2 > 0`, so `update_phi` succeeds. -/
def dict1 : SFDict 1 1 1 :=
  { V := fun _ _ => 0, U := fun _ _ => 1, alpha := fun _ => 0,
    gamma := fun _ => 1, mu := fun _ _ => 0, r := fun _ _ => 1,
    EA := fun _ _ => 1, EA2 := fun _ _ => 1, ElogA := fun _ _ => 0,
    old_mu_inc := ⊤, old_r_inc := ⊤, old_U_inc := ⊤,
    old_gamma_inc := ⊤, old_alpha_inc := ⊤, obj := 0 }

theorem update_phi_refreshes_moments_witness :
    ∃ st', update_phi (fun _ => 1) (fun _ => 0) (fun _ => 0) 0 dict1 = some st' ∧
      ∀ t, st'.EA t 0 = (fun _ : ℚ => (1:ℚ)) (st'.mu t 0 + 1 / (2 * st'.r t 0)) ∧
        st'.EA2 t 0 = (fun _ : ℚ => (1:ℚ)) (2 * st'.mu t 0 + 2 / st'.r t 0) ∧
        st'.ElogA t 0 = st'.mu t 0 ∧ 0 < st'.r t 0 := by
  have h : ∃ st', update_phi (fun _ => (1:ℚ)) (fun _ => 0) (fun _ => 0) 0 dict1
      = some st' := by
    unfold update_phi
    dsimp only
    rw [if_pos]
    · exact ⟨_, rfl⟩
    · intro t
      norm_num [df2, eres, dict1, Fin.sum_univ_one]
  obtain ⟨st', h⟩ := h
  exact ⟨st', h,
    update_phi_refreshes_moments (fun _ => 1) (fun _ => 0) (fun _ => 0)
      0 dict1 st' h⟩

/-- The two abnormal terminations of the dictionary-prior engine. -/
inductive VBErr where
  | assertionFailed
  | valueError
deriving DecidableEq

/-- `np.inf - q` as it occurs in the second-order convergence checks. -/
def topSub (a : WithTop ℚ) (q : ℚ) : WithTop ℚ :=
  a.map (· - q)

/-- `np.mean(np.abs(A - B))` over a `T × L` grid. -/
def meanAbsTL (A B : Fin T → Fin L → ℚ) : ℚ :=
  (∑ t, ∑ l, |A t l - B t l|) / (T * L)

/-- One E-step sub-iteration: `for l in xrange(self.L): self.update_phi(l)`,
sequential over atoms (each atom reads the residual already updated by the
previous atoms of the same pass). -/
def eStepPass (rexp : ℚ → ℚ) (lb br : Fin L → Fin T → ℚ)
    (st : SFDict T F L) : Option (SFDict T F L) :=
  (List.finRange L).foldlM (fun s l => update_phi rexp (lb l) (br l) l s) st

/-- The cold-start loop of `SF_Dict.vb_e`, with the remaining `xrange`
iterations as fuel; the oracles `lb`/`br` are indexed by the sub-iteration
counter `i`.  An unrecognised `conv_check` raises `ValueError` after the
first pass; `np.sqrt` is the oracle `rsqrt`. -/
def vbELoop (rexp rsqrt : ℚ → ℚ) (lb br : ℕ → Fin L → Fin T → ℚ)
    (conv_check : ℤ) (atol : ℚ) :
    ℕ → ℕ → SFDict T F L → Except VBErr (SFDict T F L)
  | _, 0, st => .ok st
  | i, n + 1, st =>
    match eStepPass rexp (lb i) (br i) st with
    | none => .error .assertionFailed
    | some st1 =>
      let mu_diff := meanAbsTL st.mu st1.mu
      let sigma_diff := meanAbsTL (fun t l => rsqrt (1 / st.r t l))
        (fun t l => rsqrt (1 / st1.r t l))
      if conv_check = 1 then
        if mu_diff ≤ atol ∧ sigma_diff ≤ atol then .ok st1
        else vbELoop rexp rsqrt lb br conv_check atol (i + 1) n st1
      else if conv_check = 2 then
        if topSub st1.old_mu_inc mu_diff ≤ (atol : WithTop ℚ) ∧
            topSub st1.old_r_inc sigma_diff ≤ (atol : WithTop ℚ) then .ok st1
        else vbELoop rexp rsqrt lb br conv_check atol (i + 1) n
          { st1 with
            old_mu_inc := (mu_diff : WithTop ℚ),
            old_r_inc := (sigma_diff : WithTop ℚ) }
      else .error .valueError

/-- `SF_Dict.vb_e`.  With `cold_start` the variational parameters are freshly
drawn (`muInit`, `rInit` are the draws of `_init_variational`, which also
resets the increment trackers to `np.inf`) and the loop runs to convergence;
otherwise a single pass is performed with no convergence check. -/
def vb_e (rexp rsqrt : ℚ → ℚ) (lb br : ℕ → Fin L → Fin T → ℚ)
    (cold_start : Bool) (muInit rInit : Fin T → Fin L → ℚ)
    (conv_check : ℤ) (maxiter : ℕ) (atol : ℚ) (st : SFDict T F L) :
    Except VBErr (SFDict T F L) :=
  if cold_start then
    let st0 := { st with
      mu := muInit, r := rInit,
      EA := fun t l => rexp (muInit t l + 1 / (2 * rInit t l)),
      EA2 := fun t l => rexp (2 * muInit t l + 2 / rInit t l),
      ElogA := muInit,
      old_mu_inc := (⊤ : WithTop ℚ), old_r_inc := (⊤ : WithTop ℚ) }
    vbELoop rexp rsqrt lb br conv_check atol 0 maxiter st0
  else
    match eStepPass rexp (lb 0) (br 0) st with
    | none => .error .assertionFailed
    | some st1 => .ok st1

/-- `SF_Dict.update_u(l)`: the row optimiser's returned iterate is the oracle
`uOpt l`; the `warnflag` branch only logs. -/
def update_u (uOpt : Fin L → Fin F → ℚ) (l : Fin L) (st : SFDict T F L) :
    SFDict T F L :=
  { st with U := fun l2 f => if l2 = l then uOpt l f else st.U l2 f }

/-- `SF_Dict.update_gamma`: closed-form
`gamma = 1/mean(V**2 - 2*V*EV + EV2, axis=0)`. -/
def update_gamma (st : SFDict T F L) : SFDict T F L :=
  { st with gamma := fun f =>
      1 / ((∑ t, (st.V t f ^ 2 -
          2 * st.V t f * (∑ l, st.EA t l * st.U l f) +
          ((∑ l, st.EA2 t l * st.U l f ^ 2) +
            (∑ l, st.EA t l * st.U l f) ^ 2 -
            ∑ l, st.EA t l ^ 2 * st.U l f ^ 2))) / T) }

/-- `SF_Dict.update_alpha`: `alpha = exp(eta_hat)` with the L-BFGS-B iterate
`eta_hat` abstracted as the oracle `aOpt`. -/
def update_alpha (rexp : ℚ → ℚ) (aOpt : Fin L → ℚ) (st : SFDict T F L) :
    SFDict T F L :=
  { st with alpha := fun l => rexp (aOpt l) }

/-- `SF_Dict._objective` (`np.log` and `special.gammaln` are oracles). -/
def sf_objective (rlog gammaln : ℚ → ℚ) (st : SFDict T F L) : SFDict T F L :=
  { st with obj :=
      1 / 2 * T * (∑ f, rlog (st.gamma f)) -
      1 / 2 * (∑ t, ∑ f, (st.V t f ^ 2 -
          2 * st.V t f * (∑ l, st.EA t l * st.U l f) +
          ((∑ l, st.EA2 t l * st.U l f ^ 2) +
            (∑ l, st.EA t l * st.U l f) ^ 2 -
            ∑ l, st.EA t l ^ 2 * st.U l f ^ 2)) * st.gamma f) +
      T * (∑ l, (st.alpha l * rlog (st.alpha l) - gammaln (st.alpha l))) +
      (∑ t, ∑ l, (st.ElogA t l * (st.alpha l - 1) - st.EA t l * st.alpha l)) }

/-- `SF_Dict.vb_m`: update `U` row-by-row, then `gamma`, then `alpha`,
compute the objective, and check convergence of the parameter increments;
an unrecognised `conv_check` raises `ValueError`, otherwise the convergence
flag is returned. -/
def vb_m (rexp rsqrt rlog gammaln : ℚ → ℚ) (uOpt : Fin L → Fin F → ℚ)
    (aOpt : Fin L → ℚ) (conv_check : ℤ) (atol : ℚ) (st : SFDict T F L) :
    Except VBErr (Bool × SFDict T F L) :=
  let st4 := sf_objective rlog gammaln (update_alpha rexp aOpt (update_gamma
    ((List.finRange L).foldl (fun s l => update_u uOpt l s) st)))
  let U_diff := (∑ l, ∑ f, |st4.U l f - st.U l f|) / (L * F)
  let sigma_diff := (∑ f, |rsqrt (1 / st4.gamma f) - rsqrt (1 / st.gamma f)|) / F
  let alpha_diff := (∑ l, |st4.alpha l - st.alpha l|) / L
  if conv_check = 1 then
    if U_diff < atol ∧ sigma_diff < atol ∧ alpha_diff < atol then
      .ok (true, st4)
    else .ok (false, st4)
  else if conv_check = 2 then
    if topSub st4.old_U_inc U_diff < (atol : WithTop ℚ) ∧
        topSub st4.old_gamma_inc sigma_diff < (atol : WithTop ℚ) ∧
        topSub st4.old_alpha_inc alpha_diff < (atol : WithTop ℚ) then
      .ok (true, st4)
    else .ok (false, { st4 with
      old_U_inc := (U_diff : WithTop ℚ),
      old_gamma_inc := (sigma_diff : WithTop ℚ),
      old_alpha_inc := (alpha_diff : WithTop ℚ) })
  else .error .valueError

/-- With a recognised mode (`conv_check` 1 or 2) the cold-start loop can end
in `.ok` or in the assertion failure, but never raises `ValueError`. -/
theorem vbELoop_ne_valueError (rexp rsqrt : ℚ → ℚ)
    (lb br : ℕ → Fin L → Fin T → ℚ) (conv_check : ℤ) (atol : ℚ)
    (hcc : conv_check = 1 ∨ conv_check = 2) :
    ∀ (n i : ℕ) (st : SFDict T F L),
      vbELoop rexp rsqrt lb br conv_check atol i n st ≠
        Except.error VBErr.valueError := by
  intro n
  induction n with
  | zero =>
    intro i st h
    simp [vbELoop] at h
  | succ n ih =>
    intro i st
    unfold vbELoop
    cases heq : eStepPass rexp (lb i) (br i) st with
    | none => simp
    | some st1 =>
      dsimp only
      rcases hcc with h1 | h2
      · rw [if_pos h1]
        split
        · simp
        · exact ih (i + 1) _
      · by_cases h1 : conv_check = 1
        · rw [if_pos h1]
          split
          · simp
          · exact ih (i + 1) _
        · rw [if_neg h1, if_pos h2]
          split
          · simp
          · exact ih (i + 1) _

/-- C10: with `cold_start`, `vb_e` raises `ValueError` for every `conv_check`
other than 1 and 2 (provided at least one sub-iteration runs and the E-step
assertions pass), and neither `vb_e` nor `vb_m` raises it for `conv_check` 1
or 2; `vb_m` raises it for every other mode unconditionally. -/
theorem conv_check_modes (rexp rsqrt rlog gammaln : ℚ → ℚ)
    (lb br : ℕ → Fin L → Fin T → ℚ) (muInit rInit : Fin T → Fin L → ℚ)
    (uOpt : Fin L → Fin F → ℚ) (aOpt : Fin L → ℚ)
    (conv_check : ℤ) (maxiter : ℕ) (atol atolm : ℚ) (st : SFDict T F L) :
    (conv_check ≠ 1 → conv_check ≠ 2 → 1 ≤ maxiter →
      vb_e rexp rsqrt lb br true muInit rInit conv_check maxiter atol st ≠
        Except.error VBErr.assertionFailed →
      vb_e rexp rsqrt lb br true muInit rInit conv_check maxiter atol st =
        Except.error VBErr.valueError) ∧
    (conv_check = 1 ∨ conv_check = 2 →
      vb_e rexp rsqrt lb br true muInit rInit conv_check maxiter atol st ≠
        Except.error VBErr.valueError) ∧
    (conv_check ≠ 1 → conv_check ≠ 2 →
      vb_m rexp rsqrt rlog gammaln uOpt aOpt conv_check atolm st =
        Except.error VBErr.valueError) ∧
    (conv_check = 1 ∨ conv_check = 2 →
      vb_m rexp rsqrt rlog gammaln uOpt aOpt conv_check atolm st ≠
        Except.error VBErr.valueError) := by
  refine ⟨?_, ?_, ?_, ?_⟩
  · intro h1 h2 hmax hna
    obtain ⟨m, rfl⟩ : ∃ m, maxiter = m + 1 := ⟨maxiter - 1, by omega⟩
    unfold vb_e at hna ⊢
    rw [if_pos rfl] at hna ⊢
    unfold vbELoop at hna ⊢
    cases heq : eStepPass rexp (lb 0) (br 0) _ with
    | none =>
      rw [heq] at hna
      dsimp only at hna
      exact absurd rfl hna
    | some st1 =>
      rw [heq] at hna
      dsimp only at hna
      dsimp only
      rw [if_neg h1, if_neg h2]
  · intro hcc
    unfold vb_e
    rw [if_pos rfl]
    exact vbELoop_ne_valueError rexp rsqrt lb br conv_check atol hcc _ _ _
  · intro h1 h2
    unfold vb_m
    rw [if_neg h1, if_neg h2]
  · intro hcc
    unfold vb_m
    dsimp only
    rcases hcc with h1 | h2
    · rw [if_pos h1]
      split <;> simp
    · by_cases h1 : conv_check = 1
      · rw [if_pos h1]
        split <;> simp
      · rw [if_neg h1, if_pos h2]
        split <;> simp

theorem conv_check_modes_witness :
    vb_e (fun _ => 1) (fun _ => 1) (fun _ _ _ => 0) (fun _ _ _ => 0) true
        (fun _ _ => 0) (fun _ _ => 1) 3 1 (1 / 1000) dict1 =
      Except.error VBErr.valueError ∧
    vb_m (fun _ => 1) (fun _ => 1) (fun _ => 0) (fun _ => 0) (fun _ _ => 1)
        (fun _ => 0) 3 (1 / 1000) dict1 = Except.error VBErr.valueError ∧
    vb_e (fun _ => 1) (fun _ => 1) (fun _ _ _ => 0) (fun _ _ _ => 0) true
        (fun _ _ => 0) (fun _ _ => 1) 1 1 (1 / 1000) dict1 ≠
      Except.error VBErr.valueError ∧
    vb_m (fun _ => 1) (fun _ => 1) (fun _ => 0) (fun _ => 0) (fun _ _ => 1)
        (fun _ => 0) 1 (1 / 1000) dict1 ≠ Except.error VBErr.valueError := by
  have heval : vb_e (fun _ => 1) (fun _ => 1) (fun _ _ _ => 0) (fun _ _ _ => 0)
      true (fun _ _ => 0) (fun _ _ => 1) 3 1 (1 / 1000) dict1 =
      Except.error VBErr.valueError := by
    norm_num [vb_e, vbELoop, eStepPass, update_phi, df2, eres, dict1,
      List.finRange_succ_eq_map, List.foldlM, Fin.sum_univ_one]
  refine ⟨?_, ?_, ?_, ?_⟩
  · exact (conv_check_modes (fun _ => 1) (fun _ => 1) (fun _ => 0) (fun _ => 0)
      (fun _ _ _ => 0) (fun _ _ _ => 0) (fun _ _ => 0) (fun _ _ => 1)
      (fun _ _ => 1) (fun _ => 0) 3 1 (1 / 1000) (1 / 1000) dict1).1
      (by norm_num) (by norm_num) (by norm_num) (by rw [heval]; simp)
  · exact (conv_check_modes (fun _ => 1) (fun _ => 1) (fun _ => 0) (fun _ => 0)
      (fun _ _ _ => 0) (fun _ _ _ => 0) (fun _ _ => 0) (fun _ _ => 1)
      (fun _ _ => 1) (fun _ => 0) 3 1 (1 / 1000) (1 / 1000) dict1).2.2.1
      (by norm_num) (by norm_num)
  · exact (conv_check_modes (fun _ => 1) (fun _ => 1) (fun _ => 0) (fun _ => 0)
      (fun _ _ _ => 0) (fun _ _ _ => 0) (fun _ _ => 0) (fun _ _ => 1)
      (fun _ _ => 1) (fun _ => 0) 1 1 (1 / 1000) (1 / 1000) dict1).2.1
      (Or.inl rfl)
  · exact (conv_check_modes (fun _ => 1) (fun _ => 1) (fun _ => 0) (fun _ => 0)
      (fun _ _ _ => 0) (fun _ _ _ => 0) (fun _ _ => 0) (fun _ _ => 1)
      (fun _ _ => 1) (fun _ => 0) 1 1 (1 / 1000) (1 / 1000) dict1).2.2.2
      (Or.inl rfl)

/-! ## Global RNG seeding (`np.random`) on construction -/

/-- The process-wide NumPy generator, abstracted as a seed value plus a draw
counter; the oracle `g seed counter` is the value of the draw at position
`counter` of the stream seeded with `seed`.  `np.random.seed(s)` replaces
the state with `(s, 0)`. -/
structure RNG where
  seedVal : ℕ
  counter : ℕ

/-- `n` successive draws from the shared generator (their distribution
parameters do not matter for the determinism claim). -/
def drawN (g : ℕ → ℕ → ℚ) (rng : RNG) (n : ℕ) : List ℚ × RNG :=
  ((List.range n).map (fun j => g rng.seedVal (rng.counter + j)),
    ⟨rng.seedVal, rng.counter + n⟩)

/-- `SF_Dict.__init__` / `_init`: `np.random.seed(seed)` for a fixed seed
(for `seed=None` the source calls `np.random.seed()`, i.e. OS entropy,
modelled by `entropy`), then the draws of `U`, `alpha`, `gamma`, `mu`, `r`
in order.  Returns the drawn parameter stream and the generator state left
behind. -/
def sfDictInitDraws (g : ℕ → ℕ → ℚ) (entropy : RNG) (rng : RNG)
    (seed : Option ℕ) (T F L : ℕ) : List ℚ × RNG :=
  let rng1 := match seed with
    | none => entropy
    | some s => (⟨s, 0⟩ : RNG)
  drawN g rng1 (L * F + L + F + T * L + T * L)

/-- `SF_GaP_NMF.__init__` / `_init`: the seed is only echoed by the
`'Using fixed seed {}'` print — `np.random.seed` is never called — after
which the draws of `rhow, tauw, rhoh, tauh, rhot, taut, nua, rhoa` are taken
from the shared generator in whatever state it currently has. -/
def sfGapNmfInitDraws (g : ℕ → ℕ → ℚ) (rng : RNG) (seed : Option ℕ)
    (F T K L : ℕ) : List ℚ × RNG :=
  drawN g rng (F * K + F * K + K * T + K * T + K + K + L * K + L * K)

/-- C9: `SF_Dict` construction with a fixed seed reseeds the shared
generator, so its drawn parameters depend only on the seed; `SF_GaP_NMF`
does not reseed, so two constructions with identical arguments and the same
fixed seed draw different parameters (here the second construction follows
the first in the same process). -/
theorem seeding_dict_deterministic_gap_not :
    (∀ (g : ℕ → ℕ → ℚ) (e1 e2 r1 r2 : RNG) (s T F L : ℕ),
      (sfDictInitDraws g e1 r1 (some s) T F L).1 =
        (sfDictInitDraws g e2 r2 (some s) T F L).1) ∧
    (sfGapNmfInitDraws (fun s c => (s : ℚ) + c) ⟨0, 0⟩ (some 5) 1 1 1 1).1 ≠
      (sfGapNmfInitDraws (fun s c => (s : ℚ) + c)
        (sfGapNmfInitDraws (fun s c => (s : ℚ) + c) ⟨0, 0⟩ (some 5) 1 1 1 1).2
        (some 5) 1 1 1 1).1 := by
  constructor
  · intro g e1 e2 r1 r2 s T F L
    rfl
  · intro h
    simp only [sfGapNmfInitDraws, drawN, List.map_inj_left, List.range_succ] at h
    have h0 := h 0 (by norm_num)
    norm_num at h0
